import Mathlib

/-!
Shallow embedding of the recommender system for network security management.

The repository ships two source files, `src/Comparators/os_comparator.py` and
`src/RecommenderIO/stdout.py`.  Those are translated directly.  The remaining
components the claims refer to (the `CpeComparator` base class, the
`GraphTraverser`, and the `Recommender` ordering) are not under `src/`; they
are modelled from the specification, and each such definition's doc comment
says so explicitly.

Python floats are modelled as rationals (`ℚ`), Python lists as Lean lists,
Python `None`-able integers as `Option Nat`, and Python operations that can
raise (`max` on an empty sequence, indexing) as `Option`-valued functions.
-/

namespace RecSys

/-- Modelled from the spec (§3): a `PlatformIdentifier` is an immutable value
with fields `part`, `vendor`, `product` and `version`, where `version` may be
absent/wildcard.  The class itself is not under `src/`. -/
structure PlatformIdentifier where
  part : String
  vendor : String
  product : String
  version : Option String
deriving DecidableEq

/-- Modelled from the spec (§3): a version mismatch alone is non-critical; a
missing/wildcard field matches anything at zero penalty and a
present-vs-absent mismatch is a partial (non-critical) difference. -/
def version_similarity : Option String → Option String → ℚ
  | none, _ => 1
  | some _, none => 1 / 2
  | some a, some b => if a = b then 1 else 0

/-- Modelled from the spec (§4.1/§6): per-category field weights are
configuration (suggested vendor 0.4, product 0.4, version 0.2). -/
structure ComparatorConfig where
  vendor_weight : ℚ
  product_weight : ℚ
  version_weight : ℚ
deriving DecidableEq

/-- Modelled from the spec (§4.1, §3): `CpeComparator._compare_sw_components`
is not under `src/` (only its caller in `os_comparator.py` is).  For a single
component pair the similarity is a weighted sum over fields, discounted to 0
if a critical mismatch is found, and `critical = true` exactly when vendor or
product differ. -/
def compare_sw_components (cfg : ComparatorConfig) (ref cand : PlatformIdentifier) :
    ℚ × Bool :=
  if ref.vendor ≠ cand.vendor ∨ ref.product ≠ cand.product then
    (0, true)
  else
    (cfg.vendor_weight * 1 + cfg.product_weight * 1 +
      cfg.version_weight * version_similarity ref.version cand.version, false)

/-- Host model (spec §3): identity, one OS component, software components,
a mutable risk and an ordered warning list.  A warning entry is a pair of a
description string and the partial similarity that triggered it. -/
structure Host where
  ip : Nat
  domains : List String
  contacts : List String
  os_component : PlatformIdentifier
  sw_components : List PlatformIdentifier
  risk : ℚ
  warnings : List (String × ℚ)
deriving DecidableEq

/-- Modelled from the spec (§4.3): `CpeComparator._add_warning_message` is not
under `src/`; per the spec a warning entry `(description, score)` is appended
to the host's warning list. -/
def add_warning_message (host : Host) (description : String) (score : ℚ) : Host :=
  { host with warnings := host.warnings ++ [(description, score)] }

/-- Modelled from the spec (glossary, §2): the string rendering of a platform
identifier (`str(host.os_component)` in the source); its exact format is not
under `src/`, only that it identifies the component. -/
def os_component_description (p : PlatformIdentifier) : String :=
  p.part ++ ":" ++ p.vendor ++ ":" ++ p.product ++ ":" ++ (p.version.getD "*")

/-- Translation of `OsComparator.calc_partial_similarity`
(`src/Comparators/os_comparator.py`, lines 9–24): compare the reference OS
component with the candidate's, add a warning message to the candidate when
the comparison is critical, and return the partial similarity.  The mutation
of the Python `host` argument is made explicit by returning the updated host
alongside the similarity. -/
def calc_partial_similarity (cfg : ComparatorConfig) (reference_host : Host)
    (host : Host) : ℚ × Host :=
  let pc := compare_sw_components cfg reference_host.os_component host.os_component
  let host' :=
    if pc.2 then
      add_warning_message host (os_component_description host.os_component) pc.1
    else host
  (pc.1, host')

/-- **C2, counterexample.**  The claim that `calc_partial_similarity` never
mutates the candidate host fails: with a reference OS `(os, acme, linux, 5.1)`
and a candidate OS `(os, acme, windows, 10)` the comparison is critical and
the returned candidate host has one more warning than it started with. -/
theorem calc_partial_similarity_mutates_counterexample :
    (calc_partial_similarity ⟨2/5, 2/5, 1/5⟩
      ⟨0, ["a"], ["c"], ⟨"os", "acme", "linux", some "5.1"⟩, [], 0, []⟩
      ⟨1, ["b"], ["d"], ⟨"os", "acme", "windows", some "10"⟩, [], 0, []⟩).2.warnings ≠
    (⟨1, ["b"], ["d"], ⟨"os", "acme", "windows", some "10"⟩, [], 0, []⟩ : Host).warnings := by
  decide

/-- **C2, amended.**  `calc_partial_similarity` leaves every field of the
candidate host unchanged except `warnings`, and it leaves `warnings`
unchanged exactly when the comparison result is not critical; when the result
is critical it does append to the candidate's warnings (warning emission is
performed by the comparator itself, not left to the caller). -/
theorem calc_partial_similarity_frame (cfg : ComparatorConfig) (rh h : Host) :
    (calc_partial_similarity cfg rh h).2.ip = h.ip ∧
    (calc_partial_similarity cfg rh h).2.domains = h.domains ∧
    (calc_partial_similarity cfg rh h).2.contacts = h.contacts ∧
    (calc_partial_similarity cfg rh h).2.os_component = h.os_component ∧
    (calc_partial_similarity cfg rh h).2.sw_components = h.sw_components ∧
    (calc_partial_similarity cfg rh h).2.risk = h.risk ∧
    ((calc_partial_similarity cfg rh h).2.warnings = h.warnings ↔
      (compare_sw_components cfg rh.os_component h.os_component).2 = false) := by
  unfold calc_partial_similarity add_warning_message
  cases hc : (compare_sw_components cfg rh.os_component h.os_component).2 <;>
    simp [hc]

/-- **C4.**  The OS comparator call appends exactly one warning entry to the
candidate host when the comparison result is flagged critical — the entry
pairing a description of the OS component with the partial similarity that
triggered it — and appends nothing when the result is not critical. -/
theorem calc_partial_similarity_warning (cfg : ComparatorConfig) (rh h : Host) :
    (calc_partial_similarity cfg rh h).2.warnings =
      h.warnings ++
        (if (compare_sw_components cfg rh.os_component h.os_component).2 then
          [(os_component_description h.os_component,
            (compare_sw_components cfg rh.os_component h.os_component).1)]
        else []) := by
  unfold calc_partial_similarity add_warning_message
  cases hc : (compare_sw_components cfg rh.os_component h.os_component).2 <;>
    simp [hc]

/-- **C7.**  When the configured field weights sum to 1, comparing two
platform identifiers whose vendor, product and version fields are all
identical yields similarity exactly 1 and `critical = false`. -/
theorem compare_sw_components_identical (cfg : ComparatorConfig)
    (hsum : cfg.vendor_weight + cfg.product_weight + cfg.version_weight = 1)
    (ref cand : PlatformIdentifier)
    (hv : ref.vendor = cand.vendor) (hp : ref.product = cand.product)
    (hver : ref.version = cand.version) :
    compare_sw_components cfg ref cand = (1, false) := by
  have hvs : version_similarity ref.version cand.version = 1 := by
    rw [hver]; cases cand.version with
    | none => rfl
    | some v => simp [version_similarity]
  unfold compare_sw_components
  rw [if_neg (by simp [hv, hp])]
  rw [hvs]
  norm_num
  linarith

/-- Witness for C7 at a concrete input: the scenario from spec §8, reference
and candidate OS both `(os, acme, linux, 5.1)` with weights 0.4/0.4/0.2. -/
theorem compare_sw_components_identical_witness :
    ((2/5 : ℚ) + 2/5 + 1/5 = 1 ∧
      (⟨"os", "acme", "linux", some "5.1"⟩ : PlatformIdentifier).vendor =
        (⟨"os", "acme", "linux", some "5.1"⟩ : PlatformIdentifier).vendor) ∧
    compare_sw_components ⟨2/5, 2/5, 1/5⟩
      ⟨"os", "acme", "linux", some "5.1"⟩ ⟨"os", "acme", "linux", some "5.1"⟩ =
      (1, false) :=
  ⟨⟨by norm_num, rfl⟩,
    compare_sw_components_identical ⟨2/5, 2/5, 1/5⟩ (by norm_num)
      ⟨"os", "acme", "linux", some "5.1"⟩ ⟨"os", "acme", "linux", some "5.1"⟩
      rfl rfl rfl⟩

/-! ### The stdout printer (`src/RecommenderIO/stdout.py`)

The printer's observable behaviour is modelled as pure functions: printed
lines become lists of strings, the mutation of `self.__headers` and
`self.__widths` becomes an explicit state transition, and Python operations
that can raise (`max` of an empty sequence, indexing `[0]`) become
`Option`-valued. -/

/-- State of a `StdoutPrinter` (`stdout.py`, `__init__`, lines 22–26). -/
structure StdoutPrinter where
  limit : Option Nat
  verbose : Bool
  headers : List String
  widths : List Nat
deriving DecidableEq

/-- `StdoutPrinter.__init__` (`stdout.py`, lines 22–26). -/
def mk_stdout_printer (limit : Option Nat) (verbose : Bool) : StdoutPrinter :=
  ⟨limit, verbose, ["IP ADDRESS", "DOMAIN(S)", "CONTACT(S)", "RISK"], [20, 0, 0, 10]⟩

/-- Python's `host_list[:limit]`: `limit = None` keeps the whole list,
`limit = k` keeps the first `k` entries. -/
def py_slice_to (limit : Option Nat) (l : List Host) : List Host :=
  match limit with
  | none => l
  | some k => l.take k

/-- `StdoutPrinter.print_number_of_hosts` (`stdout.py`, lines 34–51), as the
list of lines printed: the "Found … hosts" line always carries the
`number_of_hosts` argument, and a "Displaying …" line is added only when a
limit is set and is smaller than that count. -/
def print_number_of_hosts (p : StdoutPrinter) (number_of_hosts max_distance : Nat) :
    List String :=
  ["Found " ++ toString number_of_hosts ++ " hosts to maximum distance of " ++
      toString max_distance ++ ":"] ++
    (match p.limit with
      | some l => if l < number_of_hosts then ["Displaying " ++ toString l ++ " hosts."] else []
      | none => []) ++
    [""]

/-- The hosts whose rows `StdoutPrinter.print_host_list` renders
(`stdout.py`, lines 53–61: `list_slice = host_list[:self.limit]` and the
subsequent loop over `list_slice`). -/
def print_host_list_rows (p : StdoutPrinter) (host_list : List Host) : List Host :=
  py_slice_to p.limit host_list

/-- Python's `max(l, key=key)`: `none` on an empty sequence (a `ValueError`
in Python); on ties the first-encountered maximum is kept. -/
def py_max_by {α : Type} (key : α → Nat) : List α → Option α
  | [] => none
  | x :: xs => some (xs.foldl (fun best y => if key best < key y then y else best) x)

/-- One iteration of the host loop in `StdoutPrinter.__calc_column_widths`
(`stdout.py`, lines 83–118): take the longest domain and the longest contact
(failing like Python's `max` if either sequence is empty), and in verbose
mode, when the host has warnings, the longest warning rendering. -/
def column_widths_step (verbose : Bool) (acc : Nat × Nat × Nat) (host : Host) :
    Option (Nat × Nat × Nat) := do
  let d ← py_max_by String.length host.domains
  let c ← py_max_by String.length host.contacts
  let len_domain := max acc.1 d.length
  let len_contact := max acc.2.1 c.length
  let len_warning :=
    if verbose then
      if host.warnings.isEmpty then acc.2.2
      else
        match py_max_by (fun w => (toString w).length) host.warnings with
        | some w => max acc.2.2 (toString w).length
        | none => acc.2.2
    else acc.2.2
  pure (len_domain, len_contact, len_warning)

/-- `StdoutPrinter.__calc_column_widths` (`stdout.py`, lines 83–118), as the
final `(len_domain, len_contact, len_warning)` triple; `none` when Python
would raise `ValueError` on `max` of an empty sequence. -/
def calc_column_widths (verbose : Bool) (host_list : List Host) :
    Option (Nat × Nat × Nat) :=
  host_list.foldlM (column_widths_step verbose) (0, 0, 0)

/-- Number of additional rows beyond the first that
`StdoutPrinter.__print_host_in_table` emits for one host (`stdout.py`, lines
176–199).  The guard mirrors the source's truthiness test
`len(host.domains) > 1 or len(host.contacts) or (len(host.warnings) > 1 and
self.verbose)`, and the row count is `max(...) - 1` (iterating
`range(1, rows + 1)`). -/
def print_host_in_table_extra_rows (verbose : Bool) (host : Host) : Nat :=
  if 1 < host.domains.length ∨ host.contacts.length ≠ 0 ∨
      (1 < host.warnings.length ∧ verbose = true) then
    (if verbose then
      max (max host.domains.length host.warnings.length) host.contacts.length
    else
      max host.domains.length host.contacts.length) - 1
  else 0

/-- Python's `round(q, 4)` on the (exact-rational model of the) risk:
round half to even at the fourth decimal.  The integer part, as Python's
`round` computes it for the scaled value. -/
def round_half_even (q : ℚ) : ℤ :=
  if q - ⌊q⌋ < 1 / 2 then ⌊q⌋
  else if 1 / 2 < q - ⌊q⌋ then ⌊q⌋ + 1
  else if ⌊q⌋ % 2 = 0 then ⌊q⌋ else ⌊q⌋ + 1

/-- `round(x, 4)` of `stdout.py`, line 152, on the rational model. -/
def py_round4 (q : ℚ) : ℚ := (round_half_even (q * 10000) : ℚ) / 10000

/-- The first table row emitted by `StdoutPrinter.__print_host_in_table`
(`stdout.py`, lines 150–156): `[str(ip), domains[0], contacts[0],
str(round(risk, 4))]`, plus a warnings cell in verbose mode.  `none` when
Python would raise an `IndexError` on `domains[0]` or `contacts[0]`. -/
def print_items (verbose : Bool) (host : Host) : Option (List String) := do
  let d ← host.domains.head?
  let c ← host.contacts.head?
  let base := [toString host.ip, d, c, toString (py_round4 host.risk)]
  pure (base ++
    (if verbose then
      [(host.warnings.head?.map (fun w => toString w)).getD ""]
    else []))

/-- `StdoutPrinter.print_host_list`'s effect on the printer state
(`stdout.py`, lines 53–76 with `__calc_column_widths`): in verbose mode a
"SIMILARITIES" header and a width slot are appended, then widths 1, 2 and
(verbose) 4 are overwritten from the computed column widths. -/
def print_host_list_state (p : StdoutPrinter) (host_list : List Host) :
    Option StdoutPrinter :=
  let p1 :=
    if p.verbose then
      { p with headers := p.headers ++ ["SIMILARITIES"], widths := p.widths ++ [0] }
    else p
  match calc_column_widths p.verbose host_list with
  | none => none
  | some lens =>
    let w1 := (p1.widths.set 1 (lens.1 + 2)).set 2 (lens.2.1 + 2)
    some { p1 with widths := if p.verbose then w1.set 4 (lens.2.2 + 2) else w1 }

/-- Calling `print_host_list` `n` times in sequence on the same printer. -/
def iterate_print (host_list : List Host) : Nat → StdoutPrinter → Option StdoutPrinter
  | 0, p => some p
  | n + 1, p => (print_host_list_state p host_list).bind (iterate_print host_list n)

/-- **C1.**  The "Found … hosts" summary line always reports the full
pre-truncation candidate count: it carries the `number_of_hosts` argument
verbatim, identically for every configured limit, while the table body of
`print_host_list` renders only the first `limit` hosts. -/
theorem print_number_of_hosts_full_count (l₁ l₂ : Option Nat) (v₁ v₂ : Bool)
    (n d : Nat) (host_list : List Host) :
    (print_number_of_hosts (mk_stdout_printer l₁ v₁) n d).head? =
      some ("Found " ++ toString n ++ " hosts to maximum distance of " ++
        toString d ++ ":") ∧
    (print_number_of_hosts (mk_stdout_printer l₁ v₁) n d).head? =
      (print_number_of_hosts (mk_stdout_printer l₂ v₂) n d).head? ∧
    print_host_list_rows (mk_stdout_printer l₁ v₁) host_list =
      host_list.take (l₁.getD host_list.length) := by
  refine ⟨by simp [print_number_of_hosts], by simp [print_number_of_hosts], ?_⟩
  cases l₁ <;> simp [print_host_list_rows, py_slice_to, mk_stdout_printer]

/-- **C3.**  A rendered host occupies extra rows beyond the first exactly
when it has more than one domain, more than one contact, or (in verbose
mode) more than one warning; with one domain, one contact and at most one
warning the host is rendered on a single row. -/
theorem print_host_in_table_multirow (verbose : Bool) (host : Host)
    (hd : host.domains ≠ []) (hc : host.contacts ≠ []) :
    0 < print_host_in_table_extra_rows verbose host ↔
      (1 < host.domains.length ∨ 1 < host.contacts.length ∨
        (verbose = true ∧ 1 < host.warnings.length)) := by
  have hd1 : 1 ≤ host.domains.length := List.length_pos.mpr hd
  have hc1 : 1 ≤ host.contacts.length := List.length_pos.mpr hc
  unfold print_host_in_table_extra_rows
  rw [if_pos (Or.inr (Or.inl (by omega)))]
  cases verbose
  · rw [if_neg (by simp)]
    simp only [Bool.false_eq_true, false_and, or_false]
    omega
  · rw [if_pos rfl]
    simp only [eq_self_iff_true, true_and]
    omega

/-- Witness for C3 at a concrete input: a verbose host with two domains,
one contact and no warnings occupies an extra row. -/
theorem print_host_in_table_multirow_witness :
    ((⟨1, ["a", "b"], ["c"], ⟨"os", "v", "p", none⟩, [], 0, []⟩ : Host).domains ≠ [] ∧
      (⟨1, ["a", "b"], ["c"], ⟨"os", "v", "p", none⟩, [], 0, []⟩ : Host).contacts ≠ []) ∧
    (0 < print_host_in_table_extra_rows true
        ⟨1, ["a", "b"], ["c"], ⟨"os", "v", "p", none⟩, [], 0, []⟩ ↔
      (1 < (⟨1, ["a", "b"], ["c"], ⟨"os", "v", "p", none⟩, [], 0, []⟩ : Host).domains.length ∨
        1 < (⟨1, ["a", "b"], ["c"], ⟨"os", "v", "p", none⟩, [], 0, []⟩ : Host).contacts.length ∨
        (true = true ∧
          1 < (⟨1, ["a", "b"], ["c"], ⟨"os", "v", "p", none⟩, [], 0, []⟩ : Host).warnings.length))) :=
  ⟨⟨by decide, by decide⟩,
    print_host_in_table_multirow true _ (by decide) (by decide)⟩

/-- Half-to-even rounding moves a rational by at most one half. -/
lemma round_half_even_close (q : ℚ) : |(round_half_even q : ℚ) - q| ≤ 1 / 2 := by
  have h1 : (⌊q⌋ : ℚ) ≤ q := Int.floor_le q
  have h2 : q < ⌊q⌋ + 1 := Int.lt_floor_add_one q
  unfold round_half_even
  split
  · rename_i h
    rw [abs_le]
    constructor <;> linarith
  · rename_i h
    split
    · rename_i h'
      push_cast
      rw [abs_le]
      constructor <;> linarith
    · rename_i h'
      have hr : q - (⌊q⌋ : ℚ) = 1 / 2 := le_antisymm (not_lt.mp h') (not_lt.mp h)
      split <;> · push_cast; rw [abs_le]; constructor <;> linarith

/-- `py_round4` moves the risk by at most half of the fourth decimal. -/
lemma py_round4_close (q : ℚ) : |py_round4 q - q| ≤ 1 / 20000 := by
  have h := round_half_even_close (q * 10000)
  unfold py_round4
  have heq : (round_half_even (q * 10000) : ℚ) / 10000 - q =
      ((round_half_even (q * 10000) : ℚ) - q * 10000) / 10000 := by ring
  rw [heq, abs_div, abs_of_pos (by norm_num : (0 : ℚ) < 10000)]
  rw [div_le_div_iff₀ (by norm_num) (by norm_num)]
  linarith

/-- **C8.**  The RISK cell of a rendered host row is the host's risk rounded
to four decimal places: the cell displays `py_round4 host.risk`, a value
that is an integer multiple of `1/10000` and differs from the true risk by
at most `1/20000`. -/
theorem print_items_risk_rounded (verbose : Bool) (host : Host)
    (hd : host.domains ≠ []) (hc : host.contacts ≠ []) :
    ∃ items, print_items verbose host = some items ∧
      items.head? = some (toString host.ip) ∧
      items.get? 3 = some (toString (py_round4 host.risk)) ∧
      |py_round4 host.risk - host.risk| ≤ 1 / 20000 ∧
      ∃ n : ℤ, py_round4 host.risk = (n : ℚ) / 10000 := by
  obtain ⟨ip, doms, cts, osc, swc, rk, ws⟩ := host
  cases doms with
  | nil => exact absurd rfl hd
  | cons d ds =>
    cases cts with
    | nil => exact absurd rfl hc
    | cons c cs =>
      exact ⟨_, rfl, rfl, rfl, py_round4_close rk,
        ⟨round_half_even (rk * 10000), rfl⟩⟩

/-- Witness for C8 at a concrete input. -/
theorem print_items_risk_rounded_witness :
    ((⟨7, ["d"], ["c"], ⟨"os", "v", "p", none⟩, [], 1/3, []⟩ : Host).domains ≠ [] ∧
      (⟨7, ["d"], ["c"], ⟨"os", "v", "p", none⟩, [], 1/3, []⟩ : Host).contacts ≠ []) ∧
    (∃ items, print_items false ⟨7, ["d"], ["c"], ⟨"os", "v", "p", none⟩, [], 1/3, []⟩ =
        some items ∧
      items.head? = some (toString (7 : Nat)) ∧
      items.get? 3 = some (toString (py_round4 (1/3 : ℚ))) ∧
      |py_round4 (1/3 : ℚ) - (1/3 : ℚ)| ≤ 1 / 20000 ∧
      ∃ n : ℤ, py_round4 (1/3 : ℚ) = (n : ℚ) / 10000) :=
  ⟨⟨by decide, by decide⟩,
    print_items_risk_rounded false _ (by decide) (by decide)⟩

/-- Python's `max` with a key succeeds on every non-empty sequence. -/
lemma py_max_by_isSome {α : Type} (key : α → Nat) {l : List α} (h : l ≠ []) :
    (py_max_by key l).isSome := by
  cases l with
  | nil => exact absurd rfl h
  | cons x xs => rfl

/-- The column-width fold succeeds whenever every host has non-empty
domains and contacts, whatever the accumulator. -/
lemma column_widths_fold_isSome (verbose : Bool) :
    ∀ (host_list : List Host),
      (∀ host ∈ host_list, host.domains ≠ [] ∧ host.contacts ≠ []) →
      ∀ acc, (host_list.foldlM (column_widths_step verbose) acc).isSome := by
  intro host_list
  induction host_list with
  | nil => intro _ acc; rfl
  | cons h t ih =>
    intro hall acc
    obtain ⟨hd, hc⟩ := hall h (by simp)
    obtain ⟨d, hdv⟩ := Option.isSome_iff_exists.mp (py_max_by_isSome String.length hd)
    obtain ⟨c, hcv⟩ := Option.isSome_iff_exists.mp (py_max_by_isSome String.length hc)
    have hsome : (column_widths_step verbose acc h).isSome := by
      simp [column_widths_step, hdv, hcv]
    obtain ⟨b, hb⟩ := Option.isSome_iff_exists.mp hsome
    have : (h :: t).foldlM (column_widths_step verbose) acc =
        t.foldlM (column_widths_step verbose) b := by
      simp [List.foldlM, hb]
    rw [this]
    exact ih (fun x hx => hall x (by simp [hx])) b

/-- **C9.**  Under the §3 Host invariant (non-empty domains and contacts for
every host in the list) the column-width computation of `print_host_list`
is total: every `max` it takes is over a non-empty sequence, so the
operation never fails. -/
theorem calc_column_widths_total (verbose : Bool) (host_list : List Host)
    (hinv : ∀ host ∈ host_list, host.domains ≠ [] ∧ host.contacts ≠ []) :
    (calc_column_widths verbose host_list).isSome :=
  column_widths_fold_isSome verbose host_list hinv (0, 0, 0)

/-- Witness for C9 at a concrete input. -/
theorem calc_column_widths_total_witness :
    (∀ host ∈ [(⟨1, ["d"], ["c"], ⟨"os", "v", "p", none⟩, [], 0, [("w", 0)]⟩ : Host)],
      host.domains ≠ [] ∧ host.contacts ≠ []) ∧
    (calc_column_widths true
      [⟨1, ["d"], ["c"], ⟨"os", "v", "p", none⟩, [], 0, [("w", 0)]⟩]).isSome :=
  ⟨by decide, calc_column_widths_total true _ (by decide)⟩

/-- One verbose `print_host_list` call appends exactly one header
("SIMILARITIES") and one width slot to the printer state. -/
lemma print_host_list_state_verbose (p : StdoutPrinter) (host_list : List Host)
    (hv : p.verbose = true)
    (hinv : ∀ host ∈ host_list, host.domains ≠ [] ∧ host.contacts ≠ []) :
    ∃ p', print_host_list_state p host_list = some p' ∧
      p'.headers = p.headers ++ ["SIMILARITIES"] ∧
      p'.widths.length = p.widths.length + 1 ∧
      p'.verbose = true ∧ p'.limit = p.limit := by
  obtain ⟨lens, hlens⟩ := Option.isSome_iff_exists.mp
    (column_widths_fold_isSome p.verbose host_list hinv (0, 0, 0))
  obtain ⟨lim, vb, hs, ws⟩ := p
  simp only at hv
  subst hv
  have hcalc : calc_column_widths true host_list = some lens := hlens
  refine ⟨⟨lim, true, hs ++ ["SIMILARITIES"],
      (((ws ++ [0]).set 1 (lens.1 + 2)).set 2 (lens.2.1 + 2)).set 4 (lens.2.2 + 2)⟩,
    ?_, rfl, ?_, rfl, rfl⟩
  · simp [print_host_list_state, hcalc]
  · simp [List.length_set, List.length_append]

/-- **C10.**  In verbose mode `print_host_list` is not idempotent on the
printer state: starting from a fresh printer, `n` calls leave the headers
extended by `n` copies of "SIMILARITIES" and the widths list `n` entries
longer (so a second call renders a duplicated SIMILARITIES column). -/
theorem print_host_list_state_accumulates (limit : Option Nat)
    (host_list : List Host) (n : Nat)
    (hinv : ∀ host ∈ host_list, host.domains ≠ [] ∧ host.contacts ≠ []) :
    ∃ p', iterate_print host_list n (mk_stdout_printer limit true) = some p' ∧
      p'.headers =
        ["IP ADDRESS", "DOMAIN(S)", "CONTACT(S)", "RISK"] ++
          List.replicate n "SIMILARITIES" ∧
      p'.widths.length = 4 + n := by
  have main : ∀ (m : Nat) (p : StdoutPrinter), p.verbose = true →
      ∃ p', iterate_print host_list m p = some p' ∧
        p'.headers = p.headers ++ List.replicate m "SIMILARITIES" ∧
        p'.widths.length = p.widths.length + m ∧ p'.verbose = true := by
    intro m
    induction m with
    | zero => exact fun p hp => ⟨p, rfl, by simp, by simp, hp⟩
    | succ k ih =>
      intro p hp
      obtain ⟨p1, h1, hh1, hw1, hv1, _⟩ :=
        print_host_list_state_verbose p host_list hp hinv
      obtain ⟨p', h', hh', hw', hv'⟩ := ih p1 hv1
      refine ⟨p', ?_, ?_, ?_, hv'⟩
      · simp [iterate_print, h1, h']
      · rw [hh', hh1, List.append_assoc]
        congr 1
      · rw [hw', hw1]
        omega
  obtain ⟨p', h', hh', hw', _⟩ := main n (mk_stdout_printer limit true) rfl
  exact ⟨p', h', hh', by simpa [mk_stdout_printer] using hw'⟩

/-- Witness for C10 at a concrete input: two verbose calls on a one-host
list duplicate the SIMILARITIES column. -/
theorem print_host_list_state_accumulates_witness :
    (∀ host ∈ [(⟨1, ["d"], ["c"], ⟨"os", "v", "p", none⟩, [], 0, []⟩ : Host)],
      host.domains ≠ [] ∧ host.contacts ≠ []) ∧
    (∃ p', iterate_print [⟨1, ["d"], ["c"], ⟨"os", "v", "p", none⟩, [], 0, []⟩] 2
        (mk_stdout_printer none true) = some p' ∧
      p'.headers =
        ["IP ADDRESS", "DOMAIN(S)", "CONTACT(S)", "RISK"] ++
          List.replicate 2 "SIMILARITIES" ∧
      p'.widths.length = 4 + 2) :=
  ⟨by decide, print_host_list_state_accumulates none _ 2 (by decide)⟩

/-! ### GraphTraverser (spec §4.2)

The `GraphTraverser` class is not under `src/`; the breadth-first search is
modelled from the specification.  The topology is an adjacency relation over
host identities (nodes are `Nat` identifiers), traversal proceeds level by
level with an explicit visited set, `max_distance` is inclusive, and the
reference node is excluded from the results. -/

/-- A walk of exactly `n` edges from `s` to `v` in the adjacency relation
`adj`.  The shortest-path distance from `s` to `v` is the least such `n`. -/
inductive Reach (adj : Nat → List Nat) (s : Nat) : Nat → Nat → Prop
  | refl : Reach adj s 0 s
  | step {n u v : Nat} : Reach adj s n u → v ∈ adj u → Reach adj s (n + 1) v

/-- `v` is at shortest-path distance exactly `n` from `s`. -/
def dist_eq (adj : Nat → List Nat) (s n v : Nat) : Prop :=
  Reach adj s n v ∧ ∀ m < n, ¬ Reach adj s m v

/-- Modelled from the spec (§4.2): one BFS frontier expansion — neighbours
of the frontier not already visited (visited-set check) and not in the
frontier itself, deduplicated, in the order edges are enumerated. -/
def bfs_next (adj : Nat → List Nat) (visited frontier : List Nat) : List Nat :=
  ((frontier.flatMap adj).filter
    (fun w => !(visited.contains w || frontier.contains w))).dedup

/-- Modelled from the spec (§4.2): level-by-level BFS.  `visited` holds the
nodes at distance `< k`, `frontier` the nodes at distance exactly `k`, and
`d` more levels are expanded; each discovered host is paired with its
distance. -/
def bfs_levels (adj : Nat → List Nat) (visited frontier : List Nat) (k : Nat) :
    Nat → List (Nat × Nat)
  | 0 => []
  | d + 1 =>
    let next := bfs_next adj visited frontier
    next.map (fun v => (v, k + 1)) ++ bfs_levels adj (visited ++ frontier) next (k + 1) d

/-- Modelled from the spec (§4.2): `GraphTraverser.discover` — breadth-first
search from `reference_node` up to `max_distance` hops inclusive, returning
the discovered hosts paired with their distances; the reference node itself
is never returned. -/
def discover (adj : Nat → List Nat) (reference_node max_distance : Nat) :
    List (Nat × Nat) :=
  bfs_levels adj [] [reference_node] 0 max_distance

lemma reach_zero {adj : Nat → List Nat} {s v : Nat} :
    Reach adj s 0 v ↔ v = s :=
  ⟨fun h => by cases h; rfl, fun h => h ▸ Reach.refl⟩

lemma reach_succ {adj : Nat → List Nat} {s n v : Nat} :
    Reach adj s (n + 1) v ↔ ∃ u, Reach adj s n u ∧ v ∈ adj u := by
  constructor
  · intro h
    cases h with
    | step hu hv => exact ⟨_, hu, hv⟩
  · rintro ⟨u, hu, hv⟩
    exact hu.step hv

/-- The expanded frontier is exactly the set of nodes at distance `k + 1`,
provided `visited` and `frontier` describe distances `< k` and `= k`. -/
lemma bfs_next_mem {adj : Nat → List Nat} {s k : Nat}
    {visited frontier : List Nat}
    (hvis : ∀ w, w ∈ visited ↔ ∃ m < k, Reach adj s m w)
    (hfr : ∀ w, w ∈ frontier ↔ dist_eq adj s k w) (v : Nat) :
    v ∈ bfs_next adj visited frontier ↔ dist_eq adj s (k + 1) v := by
  unfold bfs_next
  rw [List.mem_dedup, List.mem_filter]
  have hp : ∀ w : Nat, ((!(visited.contains w || frontier.contains w)) = true) ↔
      (¬ w ∈ visited ∧ ¬ w ∈ frontier) := by
    intro w
    simp
  rw [hp]
  simp only [List.mem_flatMap]
  constructor
  · rintro ⟨⟨u, hu, hadj⟩, hnv, hnf⟩
    obtain ⟨hru, _⟩ := (hfr u).mp hu
    have hmin : ∀ m < k, ¬ Reach adj s m v := by
      intro m hm hr
      exact hnv ((hvis v).mpr ⟨m, hm, hr⟩)
    refine ⟨hru.step hadj, ?_⟩
    intro m hm hr
    rcases Nat.lt_or_ge m k with h | h
    · exact hmin m h hr
    · have : m = k := by omega
      subst this
      exact hnf ((hfr v).mpr ⟨hr, hmin⟩)
  · rintro ⟨hr, hmin⟩
    obtain ⟨u, hru, hadj⟩ := reach_succ.mp hr
    have hu : u ∈ frontier := by
      refine (hfr u).mpr ⟨hru, ?_⟩
      intro m hm hrm
      exact hmin (m + 1) (by omega) (hrm.step hadj)
    refine ⟨⟨u, hu, hadj⟩, ?_, ?_⟩
    · intro hv
      obtain ⟨m, hm, hrm⟩ := (hvis v).mp hv
      exact hmin m (by omega) hrm
    · intro hv
      exact hmin k (by omega) ((hfr v).mp hv).1

/-- Membership in the BFS output: a node is listed with distance `n` iff its
shortest-path distance is exactly `n`, with `k < n ≤ k + d`. -/
lemma bfs_levels_mem (adj : Nat → List Nat) (s : Nat) :
    ∀ (d k : Nat) (visited frontier : List Nat),
      (∀ w, w ∈ visited ↔ ∃ m < k, Reach adj s m w) →
      (∀ w, w ∈ frontier ↔ dist_eq adj s k w) →
      ∀ v n, ((v, n) ∈ bfs_levels adj visited frontier k d ↔
        k < n ∧ n ≤ k + d ∧ dist_eq adj s n v) := by
  intro d
  induction d with
  | zero =>
    intro k visited frontier _ _ v n
    simp only [bfs_levels, List.not_mem_nil, false_iff]
    rintro ⟨h1, h2, -⟩
    omega
  | succ d ih =>
    intro k visited frontier hvis hfr v n
    have hnext := bfs_next_mem hvis hfr
    have hvis' : ∀ w, w ∈ visited ++ frontier ↔ ∃ m < k + 1, Reach adj s m w := by
      intro w
      rw [List.mem_append, hvis w, hfr w]
      constructor
      · rintro (⟨m, hm, hr⟩ | ⟨hr, -⟩)
        · exact ⟨m, by omega, hr⟩
        · exact ⟨k, by omega, hr⟩
      · rintro ⟨m, hm, hr⟩
        by_cases hex : ∃ m' < k, Reach adj s m' w
        · exact Or.inl hex
        · push_neg at hex
          have hmk : m = k := by
            rcases Nat.lt_or_ge m k with h | h
            · exact absurd hr (hex m h)
            · omega
          subst hmk
          exact Or.inr ⟨hr, hex⟩
    have hrec := ih (k + 1) (visited ++ frontier) (bfs_next adj visited frontier)
      hvis' hnext v n
    simp only [bfs_levels, List.mem_append, List.mem_map, hrec]
    constructor
    · rintro (⟨a, ha, heq⟩ | ⟨h1, h2, h3⟩)
      · obtain ⟨rfl, rfl⟩ : a = v ∧ k + 1 = n := by
          exact ⟨congrArg Prod.fst heq, congrArg Prod.snd heq⟩
        exact ⟨by omega, by omega, (hnext _).mp ha⟩
      · exact ⟨by omega, by omega, h3⟩
    · rintro ⟨h1, h2, h3⟩
      by_cases hn : n = k + 1
      · subst hn
        exact Or.inl ⟨v, (hnext v).mpr h3, rfl⟩
      · exact Or.inr ⟨by omega, by omega, h3⟩

/-- **C5.**  `discover` returns exactly the hosts whose shortest-path
distance from the reference node lies between 1 and `max_distance`
inclusive: a host appears (at some recorded distance) iff it is distinct
from the reference node and some `n` with `1 ≤ n ≤ max_distance` is its
shortest-path distance.  In particular every returned host is within the
bound, none within the bound is omitted, and the reference host itself is
never returned. -/
theorem discover_within_distance (adj : Nat → List Nat)
    (reference_node max_distance v : Nat) :
    (∃ k, (v, k) ∈ discover adj reference_node max_distance) ↔
      (v ≠ reference_node ∧
        ∃ n, 1 ≤ n ∧ n ≤ max_distance ∧ dist_eq adj reference_node n v) := by
  have hvis : ∀ w, w ∈ ([] : List Nat) ↔ ∃ m < 0, Reach adj reference_node m w := by
    simp
  have hfr : ∀ w, w ∈ [reference_node] ↔ dist_eq adj reference_node 0 w := by
    intro w
    simp only [List.mem_singleton, dist_eq]
    constructor
    · rintro rfl
      exact ⟨Reach.refl, by omega⟩
    · rintro ⟨hr, -⟩
      exact reach_zero.mp hr
  have base := bfs_levels_mem adj reference_node max_distance 0 [] [reference_node]
    hvis hfr v
  unfold discover
  constructor
  · rintro ⟨k, hk⟩
    obtain ⟨h1, h2, hdist⟩ := (base k).mp hk
    refine ⟨?_, k, by omega, by omega, hdist⟩
    rintro rfl
    exact hdist.2 0 h1 Reach.refl
  · rintro ⟨hne, n, h1, h2, hdist⟩
    exact ⟨n, (base n).mpr ⟨by omega, by omega, hdist⟩⟩

/-- Sanity check (spec §8 scenario): on the chain 0–1–2–3 with reference 0
and `max_distance = 2`, discovery returns node 1 at distance 1 and node 2 at
distance 2, and excludes node 3. -/
example :
    discover (fun n => if n = 0 then [1] else if n = 1 then [0, 2]
      else if n = 2 then [1, 3] else if n = 3 then [2] else []) 0 2 =
    [(1, 1), (2, 2)] := by
  rfl

/-! ### Recommender ordering (spec §4.4)

The `Recommender` class is not under `src/`; its output ordering is
modelled from the specification: candidates sorted by `risk` descending,
ties broken by ascending `ip`. -/

/-- Modelled from the spec (§4.4): `host_le a b` holds when `a` may precede
`b` in the recommendation — strictly larger risk first, equal risks ordered
by ascending ip. -/
def host_le (a b : Host) : Prop :=
  b.risk < a.risk ∨ (a.risk = b.risk ∧ a.ip ≤ b.ip)

instance host_le_decidable : DecidableRel host_le := fun a b => by
  unfold host_le
  infer_instance

instance host_le_total : IsTotal Host host_le :=
  ⟨fun a b => by
    unfold host_le
    rcases lt_trichotomy a.risk b.risk with h | h | h
    · exact Or.inr (Or.inl h)
    · rcases Nat.le_total a.ip b.ip with hip | hip
      · exact Or.inl (Or.inr ⟨h, hip⟩)
      · exact Or.inr (Or.inr ⟨h.symm, hip⟩)
    · exact Or.inl (Or.inl h)⟩

instance host_le_transitive : IsTrans Host host_le :=
  ⟨fun a b c hab hbc => by
    unfold host_le at *
    rcases hab with h | ⟨he, hip⟩ <;> rcases hbc with h' | ⟨he', hip'⟩
    · exact Or.inl (h'.trans h)
    · exact Or.inl (he' ▸ h)
    · exact Or.inl (he ▸ h')
    · exact Or.inr ⟨he.trans he', hip.trans hip'⟩⟩

/-- Modelled from the spec (§4.4): the Recommender sorts the scored
candidates by risk descending, ties broken by ascending ip. -/
def recommender_sort (l : List Host) : List Host :=
  l.insertionSort host_le

/-- Two sorted permutations of each other agree when ips are pairwise
distinct (ip equality plus risk equality forces positional equality). -/
lemma sorted_perm_eq_of_ip_distinct :
    ∀ (l₁ l₂ : List Host), l₁.Perm l₂ →
      l₁.Pairwise (fun a b => a.ip ≠ b.ip) →
      l₁.Sorted host_le → l₂.Sorted host_le → l₁ = l₂ := by
  intro l₁
  induction l₁ with
  | nil =>
    intro l₂ p _ _ _
    exact (p.symm.eq_nil).symm
  | cons a t₁ ih =>
    intro l₂ p hpw hs₁ hs₂
    cases l₂ with
    | nil => exact absurd p.eq_nil (by simp)
    | cons b t₂ =>
      by_cases hab : a = b
      · subst hab
        have hteq : t₁ = t₂ :=
          ih t₂ p.cons_inv (List.pairwise_cons.mp hpw).2 hs₁.of_cons hs₂.of_cons
        rw [hteq]
      · exfalso
        have ha2 : a ∈ t₂ := by
          have := p.mem_iff.mp (List.mem_cons_self a t₁)
          rcases List.mem_cons.mp this with h | h
          · exact absurd h hab
          · exact h
        have hb1 : b ∈ t₁ := by
          have := p.mem_iff.mpr (List.mem_cons_self b t₂)
          rcases List.mem_cons.mp this with h | h
          · exact absurd h.symm hab
          · exact h
        have hba : host_le b a := List.rel_of_sorted_cons hs₂ a ha2
        have hab' : host_le a b := List.rel_of_sorted_cons hs₁ b hb1
        have hip : a.ip ≠ b.ip := (List.pairwise_cons.mp hpw).1 b hb1
        unfold host_le at hba hab'
        rcases hab' with h | ⟨he, hle⟩ <;> rcases hba with h' | ⟨he', hle'⟩
        · exact absurd h (lt_asymm h')
        · exact absurd h (he' ▸ lt_irrefl a.risk)
        · exact absurd h' (he ▸ lt_irrefl b.risk)
        · exact hip (Nat.le_antisymm hle hle')

/-- **C6.**  The Recommender's output is sorted by risk descending with
ties broken by ascending ip, and — provided candidate ips are pairwise
distinct — the output is identical for every permutation of the input
candidate list; in particular reversing the input yields the identical
output order. -/
theorem recommender_sort_deterministic (l l' : List Host)
    (hperm : l.Perm l') (hnd : (l.map Host.ip).Nodup) :
    (recommender_sort l).Sorted host_le ∧
    recommender_sort l' = recommender_sort l ∧
    recommender_sort l.reverse = recommender_sort l := by
  have hpw : l.Pairwise (fun a b => a.ip ≠ b.ip) := by
    rw [List.Nodup, List.pairwise_map] at hnd
    exact hnd
  have hsym : ∀ {a b : Host}, a.ip ≠ b.ip → b.ip ≠ a.ip := fun h => h.symm
  have hsorted : ∀ m : List Host, (recommender_sort m).Sorted host_le :=
    fun m => List.sorted_insertionSort host_le m
  have key : ∀ m : List Host, m.Perm l → recommender_sort m = recommender_sort l := by
    intro m hm
    have hp : (recommender_sort m).Perm (recommender_sort l) :=
      ((List.perm_insertionSort host_le m).trans hm).trans
        (List.perm_insertionSort host_le l).symm
    have hpw' : (recommender_sort m).Pairwise (fun a b => a.ip ≠ b.ip) :=
      (((List.perm_insertionSort host_le m).trans hm).pairwise_iff hsym).mpr hpw
    exact sorted_perm_eq_of_ip_distinct _ _ hp hpw' (hsorted m) (hsorted l)
  exact ⟨hsorted l, key l' hperm.symm, key l.reverse (List.reverse_perm l)⟩

/-- Witness for C6 at a concrete input: two equal-risk hosts with distinct
ips, fed in both orders. -/
theorem recommender_sort_deterministic_witness :
    (([(⟨1, ["a"], ["c"], ⟨"os", "v", "p", none⟩, [], 0, []⟩ : Host),
        ⟨2, ["b"], ["d"], ⟨"os", "v", "p", none⟩, [], 0, []⟩].Perm
      [(⟨2, ["b"], ["d"], ⟨"os", "v", "p", none⟩, [], 0, []⟩ : Host),
        ⟨1, ["a"], ["c"], ⟨"os", "v", "p", none⟩, [], 0, []⟩]) ∧
      ([(⟨1, ["a"], ["c"], ⟨"os", "v", "p", none⟩, [], 0, []⟩ : Host),
        ⟨2, ["b"], ["d"], ⟨"os", "v", "p", none⟩, [], 0, []⟩].map Host.ip).Nodup) ∧
    ((recommender_sort
        [⟨1, ["a"], ["c"], ⟨"os", "v", "p", none⟩, [], 0, []⟩,
          ⟨2, ["b"], ["d"], ⟨"os", "v", "p", none⟩, [], 0, []⟩]).Sorted host_le ∧
      recommender_sort
        [⟨2, ["b"], ["d"], ⟨"os", "v", "p", none⟩, [], 0, []⟩,
          ⟨1, ["a"], ["c"], ⟨"os", "v", "p", none⟩, [], 0, []⟩] =
        recommender_sort
          [⟨1, ["a"], ["c"], ⟨"os", "v", "p", none⟩, [], 0, []⟩,
            ⟨2, ["b"], ["d"], ⟨"os", "v", "p", none⟩, [], 0, []⟩] ∧
      recommender_sort
        [(⟨1, ["a"], ["c"], ⟨"os", "v", "p", none⟩, [], 0, []⟩ : Host),
          ⟨2, ["b"], ["d"], ⟨"os", "v", "p", none⟩, [], 0, []⟩].reverse =
        recommender_sort
          [⟨1, ["a"], ["c"], ⟨"os", "v", "p", none⟩, [], 0, []⟩,
            ⟨2, ["b"], ["d"], ⟨"os", "v", "p", none⟩, [], 0, []⟩]) :=
  ⟨⟨List.Perm.swap _ _ _, by decide⟩,
    recommender_sort_deterministic _ _ (List.Perm.swap _ _ _) (by decide)⟩

end RecSys
